import Mathlib

/-!
Verification of the pymcintosh device-control library (hass-mcintosh).

The development shallowly embeds the pure parts of
`custom_components/mcintosh/pymcintosh/__init__.py` (the command codec /
control surface), `models.py` (the static source table) and
`protocol.py` (the async protocol engine: lock serialization,
connection gating and response framing) as Lean functions and a small
transition system, and proves the specified properties about them.

Strings are modelled as `List Char`; the helper functions below embed
the exact Python string operations the source uses (`str.split`,
substring containment via `in`, `str.strip`, `int(...)`).
-/

/-- Characters of a Lean string literal, used to write wire strings. -/
def chars (s : String) : List Char := s.data

/-- Python `str.split(sep)` for a one-character separator: splits on every
occurrence of `sep`, keeping empty segments (so the result always has
`count sep + 1` elements). -/
def pySplitC (sep : Char) : List Char → List (List Char)
  | [] => [[]]
  | c :: rest =>
    match pySplitC sep rest with
    | [] => [[]]
    | s :: ss => if c = sep then [] :: s :: ss else (c :: s) :: ss

/-- Python substring containment `needle in hay` for strings. -/
def isSubstr (needle hay : List Char) : Bool :=
  match hay with
  | [] => needle.isEmpty
  | _ :: t => needle.isPrefixOf hay || isSubstr needle t

/-- Python whitespace characters recognised by `str.strip()`. -/
def pyIsSpace (c : Char) : Bool :=
  c = ' ' || c = '\t' || c = '\n' || c = '\r' || c = '\x0b' || c = '\x0c'

/-- Python `str.strip()`: removes leading and trailing whitespace. -/
def pyStrip (l : List Char) : List Char :=
  ((l.dropWhile pyIsSpace).reverse.dropWhile pyIsSpace).reverse

/-- Python `str.strip('"')`: removes leading and trailing double quotes. -/
def pyStripQuote (l : List Char) : List Char :=
  ((l.dropWhile (· = '"')).reverse.dropWhile (· = '"')).reverse

/-- Decimal digit test for the ASCII digits `'0'`–`'9'`. -/
def pyIsDigit (c : Char) : Bool := '0' ≤ c && c ≤ '9'

/-- Numeric value of an ASCII digit character. -/
def digitVal (c : Char) : Nat := c.toNat - 48

/-- Accumulating decimal parser over a run of digit characters; fails on
the first non-digit character. -/
def parseDigitsAux (acc : Nat) : List Char → Option Nat
  | [] => some acc
  | c :: t => if pyIsDigit c then parseDigitsAux (10 * acc + digitVal c) t else none

/-- Python `int(s)` on a string: surrounding whitespace is stripped, an
optional single sign is allowed, then a nonempty run of decimal digits;
any other shape raises `ValueError`, modelled as `none`. -/
def pyInt (l : List Char) : Option Int :=
  match pyStrip l with
  | [] => none
  | c :: t =>
    if c = '-' then
      if t.isEmpty then none else (parseDigitsAux 0 t).map (fun n => -(n : Int))
    else if c = '+' then
      if t.isEmpty then none else (parseDigitsAux 0 t).map (fun n => (n : Int))
    else (parseDigitsAux 0 (c :: t)).map (fun n => (n : Int))

/-- ASCII digit character of a value below ten. -/
def digitChar (n : Nat) : Char := Char.ofNat (48 + n)

/-- Decimal representation of a natural number, as Python `str(n)` renders a
nonnegative `int`. -/
def natRepr (n : Nat) : List Char :=
  if h : n < 10 then [digitChar n]
  else natRepr (n / 10) ++ [digitChar (n % 10)]
  decreasing_by exact Nat.div_lt_self (Nat.lt_of_lt_of_le (by norm_num) (Nat.le_of_not_lt h)) (by norm_num)

/-- Python `str(i)` for an `int`: a minus sign followed by the decimal digits
when negative, the decimal digits otherwise. -/
def intRepr (i : Int) : List Char :=
  if i < 0 then '-' :: natRepr i.natAbs else natRepr i.toNat

theorem pySplitC_nil (sep : Char) : pySplitC sep [] = [[]] := rfl

theorem pySplitC_ne_nil (sep : Char) (l : List Char) : pySplitC sep l ≠ [] := by
  cases l with
  | nil => simp [pySplitC]
  | cons c rest =>
    simp only [pySplitC]
    cases h : pySplitC sep rest with
    | nil => simp
    | cons s ss =>
      by_cases hc : c = sep <;> simp [hc]

theorem pySplitC_not_mem (sep : Char) (a : List Char) (ha : sep ∉ a) :
    pySplitC sep a = [a] := by
  induction a with
  | nil => rfl
  | cons c rest ih =>
    have hc : c ≠ sep := fun h => ha (h ▸ List.mem_cons_self c rest)
    have hrest : sep ∉ rest := fun h => ha (List.mem_cons_of_mem c h)
    simp only [pySplitC, ih hrest]
    simp [hc]

theorem pySplitC_append (sep : Char) (a b : List Char) (ha : sep ∉ a) :
    pySplitC sep (a ++ sep :: b) = a :: pySplitC sep b := by
  induction a with
  | nil =>
    simp only [List.nil_append, pySplitC]
    cases h : pySplitC sep b with
    | nil => exact absurd h (pySplitC_ne_nil sep b)
    | cons s ss => simp
  | cons c rest ih =>
    have hc : c ≠ sep := fun h => ha (h ▸ List.mem_cons_self c rest)
    have hrest : sep ∉ rest := fun h => ha (List.mem_cons_of_mem c h)
    simp only [List.cons_append, pySplitC, List.append_eq]
    rw [ih hrest]
    simp [hc]

theorem isPrefixOf_append_self (a b : List Char) : a.isPrefixOf (a ++ b) = true := by
  induction a with
  | nil => simp [List.isPrefixOf]
  | cons c rest ih => simp [List.isPrefixOf, ih]

theorem isSubstr_append_right (n b : List Char) : isSubstr n (n ++ b) = true := by
  cases n with
  | nil =>
    cases b with
    | nil => rfl
    | cons c t => simp [isSubstr, List.isPrefixOf]
  | cons c t =>
    simp only [isSubstr, List.cons_append]
    rw [show (c :: t).isPrefixOf (c :: (t ++ b)) = true from isPrefixOf_append_self (c :: t) b]
    simp

theorem pyIsDigit_digitChar {n : Nat} (h : n < 10) : pyIsDigit (digitChar n) = true := by
  interval_cases n <;> decide

theorem digitVal_digitChar {n : Nat} (h : n < 10) : digitVal (digitChar n) = n := by
  interval_cases n <;> decide

theorem natRepr_ne_nil (n : Nat) : natRepr n ≠ [] := by
  rw [natRepr]
  split
  · simp
  · simp

theorem natRepr_digits (n : Nat) : ∀ c ∈ natRepr n, pyIsDigit c = true := by
  induction n using Nat.strong_induction_on with
  | _ n ih =>
    rw [natRepr]
    split
    · next h =>
      intro c hc
      simp only [List.mem_singleton] at hc
      exact hc ▸ pyIsDigit_digitChar h
    · next h =>
      intro c hc
      rcases List.mem_append.mp hc with hc | hc
      · exact ih (n / 10) (Nat.div_lt_self (by omega) (by norm_num)) c hc
      · simp only [List.mem_singleton] at hc
        exact hc ▸ pyIsDigit_digitChar (Nat.mod_lt n (by norm_num))

theorem parseDigitsAux_append (a b : List Char) :
    ∀ acc, parseDigitsAux acc (a ++ b) =
      (parseDigitsAux acc a).bind (fun m => parseDigitsAux m b) := by
  induction a with
  | nil => intro acc; rfl
  | cons c t ih =>
    intro acc
    simp only [List.cons_append, parseDigitsAux]
    by_cases hc : pyIsDigit c
    · simp [hc, ih]
    · simp [hc]

theorem parseDigitsAux_natRepr (n : Nat) :
    ∀ acc, parseDigitsAux acc (natRepr n) = some (acc * 10 ^ (natRepr n).length + n) := by
  induction n using Nat.strong_induction_on with
  | _ n ih =>
    intro acc
    rw [natRepr]
    split
    · next h =>
      simp [parseDigitsAux, pyIsDigit_digitChar h, digitVal_digitChar h]
      ring
    · next h =>
      rw [parseDigitsAux_append]
      rw [ih (n / 10) (Nat.div_lt_self (by omega) (by norm_num)) acc]
      have h10 : n % 10 < 10 := Nat.mod_lt n (by norm_num)
      simp only [Option.bind_some, parseDigitsAux, pyIsDigit_digitChar h10,
        digitVal_digitChar h10, if_true, List.length_append, List.length_singleton]
      rw [pow_succ, ← mul_assoc]
      generalize acc * 10 ^ (natRepr (n / 10)).length = m
      simp only [Option.some_bind, Option.some.injEq]
      omega

theorem parseNat_natRepr (n : Nat) : parseDigitsAux 0 (natRepr n) = some n := by
  rw [parseDigitsAux_natRepr]
  simp

theorem pyIsDigit_not_space {c : Char} (h : pyIsDigit c = true) : pyIsSpace c = false := by
  by_contra hs
  simp only [Bool.not_eq_false] at hs
  simp only [pyIsSpace, Bool.or_eq_true, decide_eq_true_eq] at hs
  rcases hs with ((((h1 | h1) | h1) | h1) | h1) | h1 <;> subst h1 <;> simp_all [pyIsDigit]

theorem dropWhile_of_none {p : Char → Bool} {l : List Char}
    (h : ∀ c ∈ l, p c = false) : l.dropWhile p = l := by
  cases l with
  | nil => rfl
  | cons c t => simp [List.dropWhile, h c (List.mem_cons_self c t)]

theorem pyStrip_of_no_space {l : List Char} (h : ∀ c ∈ l, pyIsSpace c = false) :
    pyStrip l = l := by
  unfold pyStrip
  rw [dropWhile_of_none h]
  rw [dropWhile_of_none (fun c hc => h c (List.mem_reverse.mp hc))]
  exact List.reverse_reverse l

theorem intRepr_no_space (i : Int) : ∀ c ∈ intRepr i, pyIsSpace c = false := by
  unfold intRepr
  split
  · intro c hc
    rcases List.mem_cons.mp hc with hc | hc
    · subst hc; decide
    · exact pyIsDigit_not_space (natRepr_digits _ c hc)
  · intro c hc
    exact pyIsDigit_not_space (natRepr_digits _ c hc)

theorem pyInt_intRepr (i : Int) : pyInt (intRepr i) = some i := by
  unfold pyInt
  rw [pyStrip_of_no_space (intRepr_no_space i)]
  by_cases hi : i < 0
  · have hne := natRepr_ne_nil i.natAbs
    have habs : ((i.natAbs : Int)) = -i := by
      rw [Int.natCast_natAbs, abs_of_neg hi]
    simp only [intRepr, if_pos hi]
    simp [List.isEmpty_iff, hne, parseNat_natRepr, habs]
  · simp only [intRepr, if_neg hi]
    obtain ⟨c, t, hct⟩ : ∃ c t, natRepr i.toNat = c :: t := by
      cases h : natRepr i.toNat with
      | nil => exact absurd h (natRepr_ne_nil _)
      | cons c t => exact ⟨c, t, rfl⟩
    rw [hct]
    have hdig : pyIsDigit c = true :=
      natRepr_digits i.toNat c (hct ▸ List.mem_cons_self c t)
    have hcm : c ≠ '-' := by intro h; subst h; simp [pyIsDigit] at hdig
    have hcp : c ≠ '+' := by intro h; subst h; simp [pyIsDigit] at hdig
    simp only [if_neg hcm, if_neg hcp, ← hct, parseNat_natRepr]
    simp [Int.toNat_of_nonneg (not_lt.mp hi)]

/-- Payload extraction used by every getter in `__init__.py`:
`response.split('(')[1].split(')')[0]` (out-of-range indices are taken
with a default, which the callers' containment guard makes unreachable). -/
def pyPayload (r : List Char) : List Char :=
  (pySplitC ')' ((pySplitC '(' r).getD 1 [])).getD 0 []

theorem pyPayload_eq (a p b : List Char) (ha : '(' ∉ a) (hp1 : '(' ∉ p)
    (hp2 : ')' ∉ p) (hb : '(' ∉ b) :
    pyPayload (a ++ '(' :: (p ++ ')' :: b)) = p := by
  unfold pyPayload
  rw [pySplitC_append '(' a _ ha]
  have hnp : ('(' : Char) ∉ p ++ ')' :: b := by
    intro hm
    rcases List.mem_append.mp hm with hm | hm
    · exact hp1 hm
    · rcases List.mem_cons.mp hm with hm | hm
      · exact absurd hm (by decide)
      · exact hb hm
  rw [pySplitC_not_mem _ _ hnp]
  simp only [List.getD_cons_succ, List.getD_cons_zero]
  rw [pySplitC_append ')' p b hp2]
  simp only [List.getD_cons_zero]

/-- Generic boolean getter from `__init__.py` (power, mute, loudness and the
zone-2 variants all share this exact shape): guard
`if response and PRE in response`, extract the payload, compare it with the
string `"1"`; `None` (absent) when the guard fails. -/
def pyBoolGet (pre : List Char) : Option (List Char) → Option Bool
  | none => none
  | some r =>
    if !r.isEmpty && isSubstr pre r then some (pyPayload r == chars "1") else none

/-- Generic integer getter from `__init__.py` (volume, max volume, bass trim,
lipsync, channel trims share this exact shape): guard as above, then Python
`int(payload)`; a parse failure raises `ValueError`, modelled as `.error`. -/
def pyIntGet (pre : List Char) : Option (List Char) → Except Unit (Option Int)
  | none => .ok none
  | some r =>
    if !r.isEmpty && isSubstr pre r then
      match pyInt (pyPayload r) with
      | some v => .ok (some v)
      | none => .error ()
    else .ok none

/-- Embedding of `PowerControl.get`: decode of the reply to `!POWER?`. -/
def powerGet : Option (List Char) → Option Bool := pyBoolGet (chars "!POWER(")

/-- Embedding of `MuteControl.get`: decode of the reply to `!MUTE?`. -/
def muteGet : Option (List Char) → Option Bool := pyBoolGet (chars "!MUTE(")

/-- Embedding of `LoudnessControl.get`: decode of the reply to `!LOUDNESS?`. -/
def loudnessGet : Option (List Char) → Option Bool := pyBoolGet (chars "!LOUDNESS(")

/-- Embedding of `Zone2PowerControl.get`: decode of the reply to
`!POWERZONE2?` (the source checks for the `!POWER(` family). -/
def zone2PowerGet : Option (List Char) → Option Bool := pyBoolGet (chars "!POWER(")

/-- Embedding of `Zone2MuteControl.get`: decode of the reply to `!ZMUTE?`. -/
def zone2MuteGet : Option (List Char) → Option Bool := pyBoolGet (chars "!ZMUTE(")

/-- Embedding of `VolumeControl.get`: decode of the reply to `!VOL?`. -/
def volGet : Option (List Char) → Except Unit (Option Int) := pyIntGet (chars "!VOL(")

/-- Embedding of `BassTrebleControl.get_treble`: the guard accepts either the
`!TRIMTREB(` or the `!TRIMTREBLE(` response family. -/
def trebleGet : Option (List Char) → Except Unit (Option Int)
  | none => .ok none
  | some r =>
    if !r.isEmpty && (isSubstr (chars "!TRIMTREB(") r || isSubstr (chars "!TRIMTREBLE(") r) then
      match pyInt (pyPayload r) with
      | some v => .ok (some v)
      | none => .error ()
    else .ok none

/-- Static source table `SOURCES` from `models.py`, with the `.get(i, '')`
default applied: `''` for indices outside `0`–`25`. -/
def sourcesTable (i : Int) : List Char :=
  if i = 0 then chars "HDMI 1"
  else if i = 1 then chars "HDMI 2"
  else if i = 2 then chars "HDMI 3"
  else if i = 3 then chars "HDMI 4"
  else if i = 4 then chars "HDMI 5"
  else if i = 5 then chars "HDMI 6"
  else if i = 6 then chars "HDMI 7"
  else if i = 7 then chars "HDMI 8"
  else if i = 8 then chars "Audio Return"
  else if i = 9 then chars "SPDIF 1 (Optical)"
  else if i = 10 then chars "SPDIF 2 (Optical)"
  else if i = 11 then chars "SPDIF 3 (Optical)"
  else if i = 12 then chars "SPDIF 4 (Optical)"
  else if i = 13 then chars "SPDIF 5 (AES/EBU)"
  else if i = 14 then chars "SPDIF 6 (Coaxial)"
  else if i = 15 then chars "SPDIF 7 (Coaxial)"
  else if i = 16 then chars "SPDIF 8 (Coaxial)"
  else if i = 17 then chars "USB Audio"
  else if i = 18 then chars "Analog 1"
  else if i = 19 then chars "Analog 2"
  else if i = 20 then chars "Analog 3"
  else if i = 21 then chars "Analog 4"
  else if i = 22 then chars "Balanced 1"
  else if i = 23 then chars "Balanced 2"
  else if i = 24 then chars "Phono"
  else if i = 25 then chars "8 Channel Analog"
  else []

/-- Embedding of `SourceControl.get`: decode of the reply to `!SRC?`. The
source computes `parts = response.split('(')[1].split(')')`, takes
`int(parts[0])` as the index and, when `len(parts) > 1`, takes
`parts[1].strip().strip('"')` as the name; otherwise it falls back to the
static `SOURCES` table. -/
def sourceGet : Option (List Char) → Except Unit (Option (Int × List Char))
  | none => .ok none
  | some r =>
    if !r.isEmpty && isSubstr (chars "!SRC(") r then
      let parts := pySplitC ')' ((pySplitC '(' r).getD 1 [])
      match pyInt (parts.getD 0 []) with
      | none => .error ()
      | some num =>
        let name :=
          if parts.length > 1 then pyStripQuote (pyStrip (parts.getD 1 []))
          else sourcesTable num
        .ok (some (num, name))
    else .ok none

/-- Embedding of `VolumeControl.set`: clamp the level to `[0, 99]` via
`max(0, min(99, level))` and render the command `!VOL(level)`. -/
def volSetCmd (level : Int) : List Char :=
  chars "!VOL(" ++ intRepr (max 0 (min 99 level)) ++ chars ")"

/-- Embedding of `VolumeControl.up`: `if amount:` is Python truthiness, so
`None` and `0` both produce the plain `!VOL+` command. -/
def volUpCmd : Option Int → List Char
  | none => chars "!VOL+"
  | some a => if a = 0 then chars "!VOL+" else chars "!VOL+(" ++ intRepr a ++ chars ")"

/-- Embedding of `VolumeControl.down`. -/
def volDownCmd : Option Int → List Char
  | none => chars "!VOL-"
  | some a => if a = 0 then chars "!VOL-" else chars "!VOL-(" ++ intRepr a ++ chars ")"

/-- Embedding of `Zone2VolumeControl.up`. -/
def zvolUpCmd : Option Int → List Char
  | none => chars "!ZVOL+"
  | some a => if a = 0 then chars "!ZVOL+" else chars "!ZVOL+(" ++ intRepr a ++ chars ")"

/-- Embedding of `Zone2VolumeControl.down`. -/
def zvolDownCmd : Option Int → List Char
  | none => chars "!ZVOL-"
  | some a => if a = 0 then chars "!ZVOL-" else chars "!ZVOL-(" ++ intRepr a ++ chars ")"

/-- Embedding of `McIntoshAsync._send_command`: the wire request is the
command followed by `COMMAND_EOL = '\r'`. -/
def sendRequest (command : List Char) : List Char := command ++ chars "\r"

/-- Response framing from `McIntoshProtocol.send` (protocol.py lines
130–140): split the accumulated buffer on `RESPONSE_EOL`, drop empty
segments, return `''` if nothing remains, otherwise the first segment
(later segments are logged and discarded). -/
def firstLine (data : List Char) : List Char :=
  let lines := (pySplitC '\r' data).filter (fun l => !l.isEmpty)
  match lines with
  | [] => []
  | l :: _ => l

/-- Read loop from `McIntoshProtocol.send` (protocol.py lines 121–140):
append arriving chunks to the buffer until it contains the terminator,
then frame; if the chunks run out (asyncio timeout) the `TimeoutError`
is re-raised, modelled as `.error`. -/
def recvLoop (data : List Char) : List (List Char) → Except Unit (List Char)
  | [] => .error ()
  | c :: rest =>
    let d := data ++ c
    if isSubstr (chars "\r") d then .ok (firstLine d) else recvLoop d rest

/-- Outcome of one `send` call: the Python return value (`.error` when a
timeout exception propagates, otherwise `none` for Python `None` or the
framed response line) together with the writes made to the transport. -/
instance {ε α : Type} [DecidableEq ε] [DecidableEq α] : DecidableEq (Except ε α) := fun x y =>
  match x, y with
  | .ok a, .ok b =>
    if h : a = b then isTrue (by rw [h]) else isFalse (by intro he; cases he; exact h rfl)
  | .error a, .error b =>
    if h : a = b then isTrue (by rw [h]) else isFalse (by intro he; cases he; exact h rfl)
  | .ok _, .error _ => isFalse (by intro he; cases he)
  | .error _, .ok _ => isFalse (by intro he; cases he)

structure SendResult where
  result : Except Unit (Option (List Char))
  writes : List (List Char)
deriving DecidableEq

/-- Embedding of `McIntoshProtocol.send` under its decorators (protocol.py
lines 32–43 and 97–140): `ensure_connected` waits for the connected flag
and, when it stays false past the timeout, returns `None` without calling
the body (so nothing is written); otherwise the body clears the buffers,
writes the request, returns `None` immediately when no reply is expected,
and otherwise runs the read loop over the arriving `chunks`. -/
def protoSend (connected : Bool) (request : List Char) (waitForReply : Bool)
    (chunks : List (List Char)) : SendResult :=
  if !connected then { result := .ok none, writes := [] }
  else if !waitForReply then { result := .ok none, writes := [request] }
  else
    match recvLoop [] chunks with
    | .ok line => { result := .ok (some line), writes := [request] }
    | .error e => { result := .error e, writes := [request] }

/-- Events of the lock transition system modelling `locked_method`
(protocol.py lines 23–30): a `send` call requests the `asyncio.Lock`,
enters its critical section (the whole body: write plus response wait or
timeout), and exits it, releasing the lock. -/
inductive LockEvent where
  | request : Nat → LockEvent
  | enter : Nat → LockEvent
  | exit : Nat → LockEvent
deriving DecidableEq

/-- State of the lock transition system: the FIFO waiter queue and current
holder of the `asyncio.Lock`, the set of calls inside the critical
section, and histories of lock requests and of critical-section entries
(the order in which calls are serviced). -/
structure LockState where
  waiting : List Nat
  owner : Option Nat
  inCrit : List Nat
  reqLog : List Nat
  srvLog : List Nat
deriving DecidableEq

/-- Initial state: lock free, no waiters, nothing served. -/
def initLock : LockState := ⟨[], none, [], [], []⟩

/-- Small-step semantics of `async with self._lock` as used by
`locked_method`: a call joins the FIFO queue once; only the head of the
queue may take the free lock and enter the critical section; exiting
releases the lock. `asyncio.Lock` wakes waiters in arrival order, which
is what the queue discipline encodes. -/
def lockStep (σ : LockState) : LockEvent → Option LockState
  | .request t =>
    if t ∈ σ.reqLog then none
    else some { σ with waiting := σ.waiting ++ [t], reqLog := σ.reqLog ++ [t] }
  | .enter t =>
    if σ.owner = none ∧ σ.waiting.head? = some t then
      some { σ with
        waiting := σ.waiting.tail
        owner := some t
        inCrit := σ.inCrit ++ [t]
        srvLog := σ.srvLog ++ [t] }
    else none
  | .exit t =>
    if σ.owner = some t then
      some { σ with owner := none, inCrit := σ.inCrit.erase t }
    else none

/-- Run of the lock system from a given state; `none` when an event's
guard fails. -/
def lockRunFrom (σ : LockState) : List LockEvent → Option LockState
  | [] => some σ
  | e :: rest =>
    match lockStep σ e with
    | some σ' => lockRunFrom σ' rest
    | none => none

/-- Run of the lock system from the initial state. -/
def lockRun (evs : List LockEvent) : Option LockState := lockRunFrom initLock evs

/-- Invariant tying the critical section to lock ownership and the service
history to the request history. -/
def lockInv (σ : LockState) : Prop :=
  σ.inCrit = σ.owner.toList ∧ σ.reqLog = σ.srvLog ++ σ.waiting

theorem pyBoolGet_absent (pre r : List Char) (h : isSubstr pre r = false) :
    pyBoolGet pre (some r) = none := by
  unfold pyBoolGet
  simp [h]

theorem pyIntGet_absent (pre r : List Char) (h : isSubstr pre r = false) :
    pyIntGet pre (some r) = .ok none := by
  unfold pyIntGet
  simp [h]

theorem pyBoolGet_decode (a p b : List Char) (ha : '(' ∉ a) (hp1 : '(' ∉ p)
    (hp2 : ')' ∉ p) (hb : '(' ∉ b) :
    pyBoolGet (a ++ ['(']) (some ((a ++ ['(']) ++ (p ++ ')' :: b))) =
      some (p == chars "1") := by
  have hshape : (a ++ ['(']) ++ (p ++ ')' :: b) = a ++ '(' :: (p ++ ')' :: b) := by simp
  have hsub : isSubstr (a ++ ['(']) ((a ++ ['(']) ++ (p ++ ')' :: b)) = true :=
    isSubstr_append_right _ _
  have hei : ((a ++ ['(']) ++ (p ++ ')' :: b)).isEmpty = false := by
    cases a <;> rfl
  simp only [pyBoolGet, hei, hsub]
  rw [hshape, pyPayload_eq a p b ha hp1 hp2 hb]
  rfl

theorem pyIntGet_decode (a p b : List Char) (ha : '(' ∉ a) (hp1 : '(' ∉ p)
    (hp2 : ')' ∉ p) (hb : '(' ∉ b) :
    pyIntGet (a ++ ['(']) (some ((a ++ ['(']) ++ (p ++ ')' :: b))) =
      (match pyInt p with
       | some v => .ok (some v)
       | none => .error ()) := by
  have hshape : (a ++ ['(']) ++ (p ++ ')' :: b) = a ++ '(' :: (p ++ ')' :: b) := by simp
  have hsub : isSubstr (a ++ ['(']) ((a ++ ['(']) ++ (p ++ ')' :: b)) = true :=
    isSubstr_append_right _ _
  have hei : ((a ++ ['(']) ++ (p ++ ')' :: b)).isEmpty = false := by
    cases a <;> rfl
  simp only [pyIntGet, hei, hsub]
  rw [hshape, pyPayload_eq a p b ha hp1 hp2 hb]
  rfl

theorem intRepr_not_mem (i : Int) (x : Char) (hx1 : x ≠ '-')
    (hx2 : pyIsDigit x = false) : x ∉ intRepr i := by
  intro hm
  unfold intRepr at hm
  split at hm
  · rcases List.mem_cons.mp hm with hm | hm
    · exact hx1 hm
    · rw [natRepr_digits _ x hm] at hx2
      exact absurd hx2 (by decide)
  · rw [natRepr_digits _ x hm] at hx2
    exact absurd hx2 (by decide)

theorem intRepr_no_lparen (i : Int) : '(' ∉ intRepr i :=
  intRepr_not_mem i '(' (by decide) (by decide)

theorem intRepr_no_rparen (i : Int) : ')' ∉ intRepr i :=
  intRepr_not_mem i ')' (by decide) (by decide)

theorem lockStep_inv (σ σ' : LockState) (e : LockEvent) (hinv : lockInv σ)
    (hstep : lockStep σ e = some σ') : lockInv σ' := by
  obtain ⟨h1, h2⟩ := hinv
  cases e with
  | request t =>
    simp only [lockStep] at hstep
    split at hstep
    · simp at hstep
    · cases hstep
      refine ⟨h1, ?_⟩
      simp only [h2, List.append_assoc]
  | enter t =>
    simp only [lockStep] at hstep
    split at hstep
    · next hcond =>
      obtain ⟨ho, hh⟩ := hcond
      cases hstep
      cases hw : σ.waiting with
      | nil => rw [hw] at hh; simp at hh
      | cons w ws =>
        rw [hw] at hh
        simp only [List.head?_cons, Option.some.injEq] at hh
        subst hh
        constructor
        · simp only [h1, ho, Option.toList]
          rfl
        · simp only [h2, hw, List.tail_cons]
          simp [List.append_assoc]
    · simp at hstep
  | exit t =>
    simp only [lockStep] at hstep
    split at hstep
    · next ho =>
      cases hstep
      constructor
      · simp only [h1, ho, Option.toList]
        simp [List.erase_cons]
      · exact h2
    · simp at hstep

theorem lockRunFrom_inv (evs : List LockEvent) :
    ∀ σ σ', lockInv σ → lockRunFrom σ evs = some σ' → lockInv σ' := by
  induction evs with
  | nil =>
    intro σ σ' hσ h
    unfold lockRunFrom at h
    cases h
    exact hσ
  | cons e rest ih =>
    intro σ σ' hσ h
    unfold lockRunFrom at h
    cases hs : lockStep σ e with
    | none => rw [hs] at h; simp at h
    | some σ₁ =>
      rw [hs] at h
      exact ih σ₁ σ' (lockStep_inv σ σ₁ e hσ hs) h

theorem lockRun_inv (evs : List LockEvent) (σ : LockState)
    (h : lockRun evs = some σ) : lockInv σ :=
  lockRunFrom_inv evs initLock σ ⟨rfl, rfl⟩ h

theorem pySplitC_cons_sep (sep : Char) (rest : List Char) :
    pySplitC sep (sep :: rest) = [] :: pySplitC sep rest := by
  simp only [pySplitC]
  cases h : pySplitC sep rest with
  | nil => exact absurd h (pySplitC_ne_nil sep rest)
  | cons s ss => simp

theorem isSubstr_singleton_of_mem (c : Char) (l : List Char) (h : c ∈ l) :
    isSubstr [c] l = true := by
  induction l with
  | nil => simp at h
  | cons d t ih =>
    simp only [isSubstr, List.isPrefixOf, Bool.or_eq_true]
    rcases List.mem_cons.mp h with h | h
    · subst h
      left
      simp [List.isPrefixOf]
    · right
      exact ih h

theorem filter_replicate_nil (k : Nat) :
    (List.replicate k ([] : List Char)).filter (fun l => !l.isEmpty) = [] := by
  induction k with
  | zero => rfl
  | succ k ih =>
    simp only [List.replicate_succ, List.filter_cons, ih]
    rfl

theorem firstLine_eq (k : Nat) (a b : List Char) (ha : '\r' ∉ a) (hne : a ≠ []) :
    firstLine (List.replicate k '\r' ++ (a ++ '\r' :: b)) = a := by
  unfold firstLine
  have hsplit : pySplitC '\r' (List.replicate k '\r' ++ (a ++ '\r' :: b)) =
      List.replicate k [] ++ (a :: pySplitC '\r' b) := by
    induction k with
    | zero => simp [pySplitC_append '\r' a b ha]
    | succ k ih =>
      simp only [List.replicate_succ, List.cons_append, pySplitC_cons_sep, ih]
  rw [hsplit]
  have hrep := filter_replicate_nil k
  have hfa : (!a.isEmpty) = true := by
    cases a with
    | nil => exact absurd rfl hne
    | cons c t => rfl
  rw [List.filter_append, hrep, List.nil_append, List.filter_cons, hfa]
  simp

/-- C1: for concurrent `send` calls serialized by `locked_method`'s
`async with self._lock`, in every reachable state of the lock system at
most one call is inside the critical section (the write plus its full
round trip happen inside it, so a later call's write cannot begin before
the earlier call's round trip or timeout completes), and the service
history is always a prefix of the request history extended exactly by
the still-queued calls: requests are serviced strictly in FIFO
submission order. -/
theorem C1_send_serialized_fifo (evs : List LockEvent) (σ : LockState)
    (h : lockRun evs = some σ) :
    (∀ a b, a ∈ σ.inCrit → b ∈ σ.inCrit → a = b) ∧
    σ.reqLog = σ.srvLog ++ σ.waiting := by
  obtain ⟨h1, h2⟩ := lockRun_inv evs σ h
  refine ⟨?_, h2⟩
  intro x y hx hy
  rw [h1] at hx hy
  cases ho : σ.owner with
  | none => rw [ho] at hx; simp [Option.toList] at hx
  | some t =>
    rw [ho] at hx hy
    simp only [Option.toList, List.mem_singleton] at hx hy
    rw [hx, hy]

/-- Witness for C1 on the concrete trace: two requests, first served to
completion, then the second enters. -/
theorem C1_send_serialized_fifo_witness :
    (∀ a b, a ∈ (LockState.mk [] (some 1) [1] [0, 1] [0, 1]).inCrit →
        b ∈ (LockState.mk [] (some 1) [1] [0, 1] [0, 1]).inCrit → a = b) ∧
    (LockState.mk [] (some 1) [1] [0, 1] [0, 1]).reqLog =
      (LockState.mk [] (some 1) [1] [0, 1] [0, 1]).srvLog ++
        (LockState.mk [] (some 1) [1] [0, 1] [0, 1]).waiting :=
  C1_send_serialized_fifo
    [LockEvent.request 0, LockEvent.request 1, LockEvent.enter 0,
      LockEvent.exit 0, LockEvent.enter 1]
    (LockState.mk [] (some 1) [1] [0, 1] [0, 1]) (by decide)

/-- C2: a getter whose reply does not contain the expected prefix
substring returns absent rather than decoding a value; in particular a
zone-family status line arriving for a main-zone query (e.g. `!ZMUTE(1)`
for `!MUTE?`, or `!POWERZONE2(1)` for `!POWER?`) decodes to absent. -/
theorem C2_foreign_reply_absent :
    (∀ r, isSubstr (chars "!MUTE(") r = false → muteGet (some r) = none) ∧
    (∀ r, isSubstr (chars "!POWER(") r = false → zone2PowerGet (some r) = none) ∧
    (∀ r, isSubstr (chars "!VOL(") r = false → volGet (some r) = Except.ok none) ∧
    muteGet (some (chars "!ZMUTE(1)\r")) = none ∧
    powerGet (some (chars "!POWERZONE2(1)\r")) = none := by
  refine ⟨fun r h => pyBoolGet_absent _ r h, fun r h => pyBoolGet_absent _ r h,
    fun r h => pyIntGet_absent _ r h, by decide, by decide⟩

/-- Witness for C2: a volume status line offered to the mute getter
decodes to absent. -/
theorem C2_foreign_reply_absent_witness :
    muteGet (some (chars "!VOL(5)\r")) = none :=
  C2_foreign_reply_absent.1 (chars "!VOL(5)\r") (by decide)

/-- C3 counterexample: the boolean decode of `"!MUTE(x)\r"` is `false`,
not absent — the source compares the payload with `'1'` and returns that
comparison, so any non-`"1"` payload yields `False`. -/
theorem C3_counterexample :
    muteGet (some (chars "!MUTE(x)\r")) = some false ∧
    muteGet (some (chars "!MUTE(x)\r")) ≠ none := by decide

/-- C3 (amended): for every boolean getter and well-formed reply
`PREFIX(payload)\r`, a payload of `"1"` decodes to true and ANY other
payload (including `"x"`) decodes to false; absent arises only when the
expected prefix is missing. -/
theorem C3_bool_payload_amended (p : List Char) (hp1 : '(' ∉ p) (hp2 : ')' ∉ p) :
    muteGet (some (chars "!MUTE(" ++ (p ++ chars ")\r"))) = some (p == chars "1") ∧
    powerGet (some (chars "!POWER(" ++ (p ++ chars ")\r"))) = some (p == chars "1") ∧
    loudnessGet (some (chars "!LOUDNESS(" ++ (p ++ chars ")\r"))) = some (p == chars "1") ∧
    zone2MuteGet (some (chars "!ZMUTE(" ++ (p ++ chars ")\r"))) = some (p == chars "1") :=
  ⟨pyBoolGet_decode (chars "!MUTE") p (chars "\r") (by decide) hp1 hp2 (by decide),
   pyBoolGet_decode (chars "!POWER") p (chars "\r") (by decide) hp1 hp2 (by decide),
   pyBoolGet_decode (chars "!LOUDNESS") p (chars "\r") (by decide) hp1 hp2 (by decide),
   pyBoolGet_decode (chars "!ZMUTE") p (chars "\r") (by decide) hp1 hp2 (by decide)⟩

/-- Witness for the amended C3 at payload `"x"`. -/
theorem C3_bool_payload_amended_witness :
    muteGet (some (chars "!MUTE(" ++ (chars "x" ++ chars ")\r"))) =
      some (chars "x" == chars "1") :=
  (C3_bool_payload_amended (chars "x") (by decide) (by decide)).1

/-- C4 counterexample: a reply carrying the expected `!VOL(` prefix with
the non-integer payload `"x"` makes the getter raise `ValueError`
(`int('x')` in the source), not return absent. -/
theorem C4_counterexample :
    volGet (some (chars "!VOL(x)\r")) = Except.error () ∧
    volGet (some (chars "!VOL(x)\r")) ≠ Except.ok none := by decide

/-- C4 (amended): an integer getter returns absent when the reply lacks
the expected prefix (or there is no reply at all), but a reply carrying
the prefix with a payload that does not parse as a signed integer raises
an exception rather than returning absent. -/
theorem C4_int_getter_amended :
    (∀ r, isSubstr (chars "!VOL(") r = false → volGet (some r) = Except.ok none) ∧
    volGet none = Except.ok none ∧
    (∀ p, '(' ∉ p → ')' ∉ p → pyInt p = none →
      volGet (some (chars "!VOL(" ++ (p ++ chars ")\r"))) = Except.error ()) := by
  refine ⟨fun r h => pyIntGet_absent _ r h, rfl, fun p hp1 hp2 hpi => ?_⟩
  have h := pyIntGet_decode (chars "!VOL") p (chars "\r") (by decide) hp1 hp2 (by decide)
  rw [hpi] at h
  exact h

/-- Witness for the amended C4 at payload `"x"`. -/
theorem C4_int_getter_amended_witness :
    volGet (some (chars "!VOL(" ++ (chars "x" ++ chars ")\r"))) = Except.error () :=
  C4_int_getter_amended.2.2 (chars "x") (by decide) (by decide) (by decide)

/-- C5: evaluation of `SourceControl.get` at the inputs named by the
claim. A reply with a trailing quoted name decodes to index 1 with name
`"HDMI 2"` as claimed, but a reply `!SRC(1)\r` WITHOUT a name decodes to
index 1 with the EMPTY name: Python's `'1)\r'.split(')')` is
`['1', '\r']`, so `len(parts) > 1` holds and the `SOURCES` table branch
is dead for any reply containing `)`; it is reached only for truncated
input such as `!SRC(1`. -/
theorem C5_source_name_eval :
    sourceGet (some (chars "!SRC(1) \"HDMI 2\"\r")) =
      Except.ok (some (1, chars "HDMI 2")) ∧
    sourceGet (some (chars "!SRC(1)\r")) = Except.ok (some (1, [])) ∧
    sourcesTable 1 = chars "HDMI 2" ∧
    sourceGet (some (chars "!SRC(1")) = Except.ok (some (1, chars "HDMI 2")) := by
  decide

/-- C6 counterexample: the return value of a `send` attempted while
disconnected equals the return value of a successful no-reply `send` —
both are Python `None` — so the "not connected" outcome is NOT
distinguishable from a successful fire-and-forget send. -/
theorem C6_counterexample :
    (protoSend false (chars "!PING?\r") true [chars "!PONG\r"]).result =
      (protoSend true (chars "!PING?\r") false []).result ∧
    (protoSend false (chars "!PING?\r") true [chars "!PONG\r"]).result =
      Except.ok none := by decide

/-- C6 (amended): a `send` issued while the connection is not established
(the connected flag stays false past the `asyncio.wait_for` timeout in
`ensure_connected`) returns `None` and performs no write to the
transport; that `None` is the very value a successful no-reply send
returns, so the two are indistinguishable by return value. -/
theorem C6_disconnected_send_amended (req : List Char) (wfr : Bool)
    (chunks : List (List Char)) :
    protoSend false req wfr chunks =
      { result := Except.ok none, writes := [] } ∧
    (protoSend false req wfr chunks).result =
      (protoSend true req false chunks).result :=
  ⟨rfl, rfl⟩

/-- C7: when the received buffer contains the terminator, `send` splits
it on the terminator, drops empty segments, returns the first non-empty
segment decoded as text, and discards (never merges) everything after
the first segment's terminator. -/
theorem C7_first_line_framing (k : Nat) (a b req : List Char)
    (ha : '\r' ∉ a) (hne : a ≠ []) :
    protoSend true req true [List.replicate k '\r' ++ (a ++ '\r' :: b)] =
      { result := Except.ok (some a), writes := [req] } := by
  have hmem : '\r' ∈ List.replicate k '\r' ++ (a ++ '\r' :: b) := by simp
  have hsub : isSubstr (chars "\r") (List.replicate k '\r' ++ (a ++ '\r' :: b)) = true :=
    isSubstr_singleton_of_mem '\r' _ hmem
  simp only [protoSend, recvLoop, List.nil_append, hsub, Bool.not_true, if_true]
  rw [firstLine_eq k a b ha hne]
  rfl

/-- Witness for C7: a buffer with a leading empty segment, the first line
`!PONG`, and a discarded second line. -/
theorem C7_first_line_framing_witness :
    protoSend true (chars "!PING?\r") true
      [List.replicate 1 '\r' ++ (chars "!PONG" ++ '\r' :: chars "!VOL(20)\r")] =
      { result := Except.ok (some (chars "!PONG")),
        writes := [chars "!PING?\r"] } :=
  C7_first_line_framing 1 (chars "!PONG") (chars "!VOL(20)\r") (chars "!PING?\r")
    (by decide) (by decide)

/-- C8: `Volume.set(n)` clamps its argument to `[0, 99]` and renders
`!VOL(clamp)\r` on the wire; decoding the echo of that command yields
the clamped level, so for `n` already in `[0, 99]` the round trip is the
identity. -/
theorem C8_volume_roundtrip (n : Int) :
    sendRequest (volSetCmd n) =
      chars "!VOL(" ++ (intRepr (max 0 (min 99 n)) ++ chars ")\r") ∧
    volGet (some (sendRequest (volSetCmd n))) =
      Except.ok (some (max 0 (min 99 n))) ∧
    (0 ≤ n → n ≤ 99 →
      volGet (some (sendRequest (volSetCmd n))) = Except.ok (some n)) := by
  have hwire : sendRequest (volSetCmd n) =
      chars "!VOL(" ++ (intRepr (max 0 (min 99 n)) ++ chars ")\r") := by
    unfold sendRequest volSetCmd
    rw [List.append_assoc, List.append_assoc]
    rfl
  have hdec : volGet (some (chars "!VOL(" ++
      (intRepr (max 0 (min 99 n)) ++ chars ")\r"))) =
      Except.ok (some (max 0 (min 99 n))) := by
    have h := pyIntGet_decode (chars "!VOL") (intRepr (max 0 (min 99 n)))
      (chars "\r") (by decide) (intRepr_no_lparen _) (intRepr_no_rparen _) (by decide)
    rw [pyInt_intRepr] at h
    exact h
  refine ⟨hwire, by rw [hwire]; exact hdec, fun h0 h99 => ?_⟩
  rw [hwire, hdec]
  have hc : max 0 (min 99 n) = n := by omega
  rw [hc]

/-- Witness for C8 at level 50. -/
theorem C8_volume_roundtrip_witness :
    volGet (some (sendRequest (volSetCmd 50))) = Except.ok (some 50) :=
  (C8_volume_roundtrip 50).2.2 (by norm_num) (by norm_num)

theorem trebleGet_wf1 (p : List Char) (hp1 : '(' ∉ p) (hp2 : ')' ∉ p) :
    trebleGet (some (chars "!TRIMTREB(" ++ (p ++ chars ")\r"))) =
      (match pyInt p with
       | some v => Except.ok (some v)
       | none => Except.error ()) := by
  have hsub : isSubstr (chars "!TRIMTREB(")
      (chars "!TRIMTREB(" ++ (p ++ chars ")\r")) = true :=
    isSubstr_append_right _ _
  have hpay : pyPayload (chars "!TRIMTREB(" ++ (p ++ chars ")\r")) = p :=
    pyPayload_eq (chars "!TRIMTREB") p (chars "\r") (by decide) hp1 hp2 (by decide)
  have hei : (chars "!TRIMTREB(" ++ (p ++ chars ")\r")).isEmpty = false := rfl
  simp only [trebleGet, hei, hsub, hpay, Bool.true_or]
  rfl

theorem trebleGet_wf2 (p : List Char) (hp1 : '(' ∉ p) (hp2 : ')' ∉ p) :
    trebleGet (some (chars "!TRIMTREBLE(" ++ (p ++ chars ")\r"))) =
      (match pyInt p with
       | some v => Except.ok (some v)
       | none => Except.error ()) := by
  have hsub : isSubstr (chars "!TRIMTREBLE(")
      (chars "!TRIMTREBLE(" ++ (p ++ chars ")\r")) = true :=
    isSubstr_append_right _ _
  have hpay : pyPayload (chars "!TRIMTREBLE(" ++ (p ++ chars ")\r")) = p :=
    pyPayload_eq (chars "!TRIMTREBLE") p (chars "\r") (by decide) hp1 hp2 (by decide)
  have hei : (chars "!TRIMTREBLE(" ++ (p ++ chars ")\r")).isEmpty = false := rfl
  simp only [trebleGet, hei, hsub, hpay, Bool.or_true]
  rfl

/-- C9: the treble-trim getter accepts both response spellings — for any
integer `k` a reply of either `!TRIMTREB(k)\r` or `!TRIMTREBLE(k)\r`
decodes to `k` — and a reply carrying neither prefix decodes to absent. -/
theorem C9_treble_both_spellings (k : Int) :
    trebleGet (some (chars "!TRIMTREB(" ++ (intRepr k ++ chars ")\r"))) =
      Except.ok (some k) ∧
    trebleGet (some (chars "!TRIMTREBLE(" ++ (intRepr k ++ chars ")\r"))) =
      Except.ok (some k) ∧
    (∀ r, isSubstr (chars "!TRIMTREB(") r = false →
      isSubstr (chars "!TRIMTREBLE(") r = false →
      trebleGet (some r) = Except.ok none) := by
  refine ⟨?_, ?_, fun r h1 h2 => ?_⟩
  · have h := trebleGet_wf1 (intRepr k) (intRepr_no_lparen k) (intRepr_no_rparen k)
    rw [pyInt_intRepr] at h
    exact h
  · have h := trebleGet_wf2 (intRepr k) (intRepr_no_lparen k) (intRepr_no_rparen k)
    rw [pyInt_intRepr] at h
    exact h
  · simp [trebleGet, h1, h2]

/-- Witness for C9: the decode at `k = 10` and the absent case on a
foreign reply. -/
theorem C9_treble_both_spellings_witness :
    trebleGet (some (chars "!PONG")) = Except.ok none :=
  (C9_treble_both_spellings 10).2.2 (chars "!PONG") (by decide) (by decide)

/-- C10: a relative volume step with amount `0` sends the plain relative
command, bit-identical on the wire to calling with no amount at all, for
the main-zone and zone-2 up/down variants alike; `!VOL+(0)` is never
produced for a zero amount. -/
theorem C10_zero_amount_plain_command :
    sendRequest (volUpCmd (some 0)) = chars "!VOL+\r" ∧
    volUpCmd (some 0) = volUpCmd none ∧
    sendRequest (volDownCmd (some 0)) = chars "!VOL-\r" ∧
    volDownCmd (some 0) = volDownCmd none ∧
    sendRequest (zvolUpCmd (some 0)) = chars "!ZVOL+\r" ∧
    zvolUpCmd (some 0) = zvolUpCmd none ∧
    sendRequest (zvolDownCmd (some 0)) = chars "!ZVOL-\r" ∧
    zvolDownCmd (some 0) = zvolDownCmd none ∧
    sendRequest (volUpCmd (some 0)) ≠ chars "!VOL+(0)\r" := by decide
